import Mathlib

/-!
# Verification of the open-source-contributions scripts

Shallow embedding of `update_database.py` (record reconciliation) and
`generate_contributions.py` (report building) from the
`posts/open_source_contributions` directory, together with theorems settling
the specification claims about them.

Python strings are modelled as `List Char`; JSON values stored in the record
dictionaries are modelled by `JVal`; a Python dict holding a JSON object is an
association list `Dict` whose keys are unique in well-formed inputs.
Fallible Python code (subscript `KeyError`, `datetime` parse errors, method
calls on `None`) is modelled by `Option`-returning functions where `none`
models a raised exception.
-/

namespace Contrib

/-- Python strings, modelled as lists of characters. -/
abbrev Str := List Char

/-- Shorthand turning a Lean string literal into the `Str` model. -/
def lit (s : String) : Str := s.toList

/-- JSON scalar values as stored in the databases (`prs.json`, `repos.json`).
The repository records contain only scalars; `jnull` models both JSON `null`
and Python `None`. -/
inductive JVal where
  | jnull
  | jbool (b : Bool)
  | jnum (n : Int)
  | jstr (s : Str)
deriving DecidableEq, Repr

/-- A Python dict with string keys holding JSON scalars (one repository
record). Well-formed records have pairwise distinct keys. -/
abbrev Dict := List (Str × JVal)

/-- `d[k]` lookup, `none` when the key is absent (a `KeyError` site when the
Python code subscripts directly). -/
def dget (d : Dict) (k : Str) : Option JVal :=
  (d.find? fun kv => decide (kv.1 = k)).map (·.2)

/-- Python `d.get(k, default)`. -/
def dgetD (d : Dict) (k : Str) (v : JVal) : JVal := (dget d k).getD v

/-- Python `d.get(k)`: `None` both when the key is absent and when it is
stored as `null`. -/
def pyGet (d : Dict) (k : Str) : JVal := dgetD d k .jnull

/-- Python dict assignment `d[k] = v`: an existing key keeps its position and
gets the new value, a new key is appended. -/
def dinsert (d : Dict) (k : Str) (v : JVal) : Dict :=
  if (d.find? fun kv => decide (kv.1 = k)).isSome then
    d.map fun kv => if kv.1 = k then (k, v) else kv
  else
    d ++ [(k, v)]

/-- Python `d.update(other)`: assign every key/value pair of `other` into `d`
in iteration order. -/
def dupdate (d other : Dict) : Dict :=
  other.foldl (fun acc kv => dinsert acc kv.1 kv.2) d

/-- A pull-request record from `prs.json`.  The reconciler and the report
builder access it only through `.get` with defaults, so each field is
`Option`-valued with `none` modelling an absent key. -/
structure RepoRef where
  name : Option Str
  nameWithOwner : Option Str
deriving DecidableEq, Repr

structure PR where
  title : Option Str
  url : Option Str
  createdAt : Option Str
  state : Option Str
  repository : Option RepoRef
deriving DecidableEq, Repr

/-- `pr.get('repository', {}).get('nameWithOwner', d)`. -/
def PR.fullNameD (pr : PR) (d : Str) : Str :=
  (pr.repository.bind RepoRef.nameWithOwner).getD d

/-- `pr.get('repository', {}).get('name', d)`. -/
def PR.repoNameD (pr : PR) (d : Str) : Str :=
  (pr.repository.bind RepoRef.name).getD d

/-- `pr.get('createdAt', '')`. -/
def PR.createdAtD (pr : PR) : Str := pr.createdAt.getD []

/-! ## `update_database.py`: the reconciler -/

/-- `merge_prs` (update_database.py, lines 67-78).  The set of existing URLs
is computed once up front; incoming records whose URL is not in that set are
appended in encounter order.  The set is *not* extended as records are
appended. -/
def merge_prs (existing_prs new_prs : List PR) : List PR :=
  let existing_urls := existing_prs.map PR.url
  existing_prs ++ new_prs.filter fun pr => decide (pr.url ∉ existing_urls)

/-- The `'name'` key. -/
def nameKey : Str := lit "name"

/-- The names of a list of repository records, as Python values
(`repo.get('name')`). -/
def repoNames (l : List Dict) : List JVal := l.map fun r => pyGet r nameKey

/-- Index of the repository record a name maps to in the Python dict
comprehension `{repo.get('name'): repo for repo in existing_repos}`: the
*last* record with that name. -/
def lastNameIdx : List Dict → JVal → Option Nat
  | [], _ => none
  | r :: rs, rn =>
    match lastNameIdx rs rn with
    | some i => some (i + 1)
    | none => if pyGet r nameKey = rn then some 0 else none

/-- One iteration of the `merge_repos` loop body: a record whose name is a key
of the lookup dict built from `existing_repos` mutates the looked-up record in
place (modelled by `List.set` at its index, which is an index into the
original existing prefix of the accumulator), a non-matching record is
appended.  Appended records are never added to the lookup dict. -/
def mergeRepoStep (existing_repos acc : List Dict) (repo : Dict) : List Dict :=
  match lastNameIdx existing_repos (pyGet repo nameKey) with
  | some i => acc.set i (dupdate (acc.getD i []) repo)
  | none => acc ++ [repo]

/-- `merge_repos` (update_database.py, lines 80-95). -/
def merge_repos (existing_repos new_repos : List Dict) : List Dict :=
  new_repos.foldl (mergeRepoStep existing_repos) existing_repos

/-! ## `generate_contributions.py`: repository categorization -/

/-- Python truthiness of a JSON scalar (`if repo.get('isPrivate', False)`). -/
def truthy : JVal → Bool
  | .jnull => false
  | .jbool b => b
  | .jnum n => n != 0
  | .jstr s => !s.isEmpty

/-- ASCII model of Python `str.lower` on one character. -/
def lowerChar (c : Char) : Char :=
  if 65 ≤ c.toNat ∧ c.toNat ≤ 90 then Char.ofNat (c.toNat + 32) else c

/-- ASCII model of Python `str.lower`. -/
def lowerStr (s : Str) : Str := s.map lowerChar

/-- Python substring test `needle in hay`. -/
def substr (needle hay : Str) : Bool := decide (needle <:+: hay)

def isPrivateKey : Str := lit "isPrivate"

def isForkKey : Str := lit "isFork"

def descKey : Str := lit "description"

def docKeywords : List Str :=
  [lit "tutorial", lit "docs", lit "documentation", lit "guide"]

def researchKeywords : List Str :=
  [lit "research", lit "paper", lit "parametron", lit "quantum",
    lit "oscillator", lit "hopf"]

def toolsKeywords : List Str :=
  [lit "tool", lit "utility", lit "engine", lit "zotero", lit "homebrew"]

/-- The generator expression
`any(keyword in name.lower() or keyword in description.lower() for keyword in ks)`
(generate_contributions.py, lines 52-60).  `description` (the value of
`repo.get('description', '')`) is only `.lower()`-ed when the keyword is not
found in the name, mirroring `or` short-circuiting; `.lower()` on a
non-string (for instance a JSON `null` description) raises, modelled by
`none`. -/
def checkKeywords (name : Str) (desc : JVal) : List Str → Option Bool
  | [] => some false
  | k :: ks =>
    if substr k (lowerStr name) then some true
    else
      match desc with
      | .jstr d => if substr k (lowerStr d) then some true else checkKeywords name desc ks
      | _ => none

/-- The Personal Projects rule
`'github.io' in name or 'website' in name or 'hugo' in name`
(generate_contributions.py, line 61): raw name, no lowercasing, description
not consulted. -/
def personalMatch (name : Str) : Bool :=
  substr (lit "github.io") name || substr (lit "website") name ||
    substr (lit "hugo") name

/-- The five category buckets, in the priority order of the `if/elif` chain. -/
inductive Bucket where
  | julia
  | docs
  | research
  | tools
  | personal
deriving DecidableEq, Repr

/-- The per-repository decision of `categorize_repositories`
(generate_contributions.py, lines 42-63): `some none` means the repository is
skipped (private/fork or matching no rule), `some (some b)` assigns bucket
`b`, and `none` models a raised exception (`repo['name']` KeyError, or
`.lower()`/`.endswith` on a non-string). -/
def classifyRepo (r : Dict) : Option (Option Bucket) :=
  if truthy (pyGet r isPrivateKey) || truthy (pyGet r isForkKey) then some none
  else
    match dget r nameKey with
    | some (JVal.jstr name) =>
      let desc := dgetD r descKey (JVal.jstr [])
      if decide ((lit ".jl") <:+ name) then some (some Bucket.julia)
      else
        match checkKeywords name desc docKeywords with
        | none => none
        | some true => some (some Bucket.docs)
        | some false =>
          match checkKeywords name desc researchKeywords with
          | none => none
          | some true => some (some Bucket.research)
          | some false =>
            match checkKeywords name desc toolsKeywords with
            | none => none
            | some true => some (some Bucket.tools)
            | some false =>
              if personalMatch name then some (some Bucket.personal) else some none
    | _ => none

/-- The five bucket lists, fields in the creation order of the Python
`categories` dict. -/
structure Categories where
  julia : List Dict
  research : List Dict
  tools : List Dict
  docs : List Dict
  personal : List Dict
deriving DecidableEq, Repr

def Categories.bucket (c : Categories) : Bucket → List Dict
  | .julia => c.julia
  | .docs => c.docs
  | .research => c.research
  | .tools => c.tools
  | .personal => c.personal

def insertBucket : Option Bucket → Dict → Categories → Categories
  | none, _, c => c
  | some .julia, r, c => { c with julia := r :: c.julia }
  | some .docs, r, c => { c with docs := r :: c.docs }
  | some .research, r, c => { c with research := r :: c.research }
  | some .tools, r, c => { c with tools := r :: c.tools }
  | some .personal, r, c => { c with personal := r :: c.personal }

/-- `categorize_repositories` (generate_contributions.py, lines 32-65):
each repository is appended to the bucket of its first matching rule, in
iteration order; any raised exception aborts the whole call. -/
def categorize_repositories : List Dict → Option Categories
  | [] => some ⟨[], [], [], [], []⟩
  | r :: rs =>
    match classifyRepo r, categorize_repositories rs with
    | some b, some cats => some (insertBucket b r cats)
    | _, _ => none

/-! ## `generate_contributions.py`: the report builder -/

/-- Decimal rendering of a count interpolated into an f-string. -/
def natStr (n : Nat) : Str := (Nat.repr n).toList

/-- Model of
`datetime.fromisoformat(ts.replace('Z', '+00:00')).strftime('%Y-%m-%d')`
(an external `datetime` library call): succeeds on a timestamp starting with
a `YYYY-MM-DD` date — every timestamp the data source produces — returning
that date prefix, and fails (modelling the raised `ValueError`) otherwise, in
particular on the empty string that `pr.get('createdAt', '')` yields for a
record with no creation timestamp.  The `'Z' → '+00:00'` replacement only
touches the suffix after the date and is absorbed by the model. -/
def formatIsoDate (s : Str) : Option Str :=
  match s.take 10 with
  | [y1, y2, y3, y4, h1, m1, m2, h2, d1, d2] =>
    if y1.isDigit && y2.isDigit && y3.isDigit && y4.isDigit &&
        decide (h1 = '-') && m1.isDigit && m2.isDigit &&
        decide (h2 = '-') && d1.isDigit && d2.isDigit then
      some [y1, y2, y3, y4, h1, m1, m2, h2, d1, d2]
    else none
  | _ => none

/-- One rendered PR entry
`f"- **[{repo_name}]({url})** - {title} *(merged {created_date})*"`
with the fallbacks of generate_contributions.py, lines 106-112 (also lines
191-197, 221-227, 238-244, 268-274, 285-291, 296-302, which are identical):
missing repository/nameWithOwner renders as `Unknown`, missing title as
`No title`, missing URL as the placeholder anchor `#`; a `createdAt` that
does not parse raises, modelled by `none`. -/
def renderPRLine (pr : PR) : Option Str :=
  (formatIsoDate pr.createdAtD).map fun d =>
    lit "- **[" ++ pr.fullNameD (lit "Unknown") ++ lit "](" ++
      pr.url.getD (lit "#") ++ lit ")** - " ++ pr.title.getD (lit "No title") ++
      lit " *(merged " ++ d ++ lit ")*"

/-- Render a list of PR entries in order; the first raised exception aborts
the whole generation (the Python loop appends to `md` but the exception
propagates out of `generate_markdown`). -/
def mapOpt {α β : Type} (f : α → Option β) : List α → Option (List β)
  | [] => some []
  | a :: as =>
    match f a, mapOpt f as with
    | some b, some bs => some (b :: bs)
    | _, _ => none

/-- Python string `<=`: lexicographic on code points. -/
def strLE : Str → Str → Bool
  | [], _ => true
  | _ :: _, [] => false
  | a :: as, b :: bs => if a = b then strLE as bs else decide (a < b)

/-- The comparison used by
`prs.sort(key=lambda x: x.get('createdAt', ''), reverse=True)` and
`sorted(prs, key=..., reverse=True)`: `a` may precede `b` iff `a`'s
timestamp is at least `b`'s (ties keep encounter order — Python sorts are
stable). -/
def prCreatedDesc (a b : PR) : Bool := strLE b.createdAtD a.createdAtD

/-- Insert `a` in front of the first element it may precede. -/
def insertStable {α : Type} (le : α → α → Bool) (a : α) : List α → List α
  | [] => [a]
  | b :: bs => if le a b then a :: b :: bs else b :: insertStable le a bs

/-- Model of Python's stable sort (`list.sort` / `sorted`): insertion sort is
stable, and for a total preorder every stable sort produces the same list, so
this agrees with CPython's timsort on the comparisons used here. -/
def sortStable {α : Type} (le : α → α → Bool) : List α → List α
  | [] => []
  | a :: as => insertStable le a (sortStable le as)

def sortByCreatedDesc (prs : List PR) : List PR := sortStable prCreatedDesc prs

/-- `pr.get('repository', {}).get('nameWithOwner', '').startswith('oameye/')`
(generate_contributions.py, line 85). -/
def startsWithOameye (pr : PR) : Bool := decide ((lit "oameye/") <+: pr.fullNameD [])

/-- `pr.get('state') == 'merged'`. -/
def isMergedState (pr : PR) : Bool := decide (pr.state = some (lit "merged"))

/-- `external_closed_prs` (generate_contributions.py, line 85): drop PRs to
`oameye/...` repositories, keep only merged ones. -/
def externalClosedPRs (all_prs : List PR) : List PR :=
  all_prs.filter fun pr => !startsWithOameye pr && isMergedState pr

/-- `repo_full_name.split('/')[0] if '/' in repo_full_name else 'Unknown'`
(generate_contributions.py, lines 158-159). -/
def orgOf (pr : PR) : Str :=
  let full := pr.fullNameD (lit "Unknown")
  if full.contains '/' then full.takeWhile (fun c => decide (c ≠ '/')) else lit "Unknown"

/-- The keys of the insertion-ordered `org_prs` defaultdict
(generate_contributions.py, lines 154-161): organizations in order of first
appearance, excluding `oameye`. -/
def orgKeys (prs : List PR) : List Str :=
  prs.foldl
    (fun acc pr =>
      let o := orgOf pr
      if o = lit "oameye" then acc
      else if o ∈ acc then acc else acc ++ [o])
    []

/-- The `(org, prs)` items of `org_prs`: each bucket keeps the iteration
order of the (already sorted) PR list. -/
def orgItems (prs : List PR) : List (Str × List PR) :=
  (orgKeys prs).map fun o => (o, prs.filter fun pr => decide (orgOf pr = o))

/-- `sorted(org_prs.items(), key=lambda x: len(x[1]), reverse=True)`
(generate_contributions.py, line 164). -/
def sortedOrgItems (prs : List PR) : List (Str × List PR) :=
  sortStable (fun a b => Nat.ble b.2.length a.2.length) (orgItems prs)

/-- The flagship-organization rendering policy shared by the
`JuliaDynamics`/`CriticalTransitions.jl` branch (generate_contributions.py,
lines 198-244) and the `qojulia`/`SecondQuantizedAlgebra.jl` branch (lines
245-291), which differ only in the flagship name, the role text of the
header, and the organization name of the `Other ... contributions` header.
The dead locals of those branches (`merged_count`, `repo_counts`, which are
computed but never rendered) are omitted. -/
def renderFlagshipBlock (flagship role otherHdr : Str) (prs : List PR) :
    Option (List Str) :=
  let ct := prs.filter fun pr => decide (pr.repoNameD (lit "Unknown") = flagship)
  let other := prs.filter fun pr => decide (pr.repoNameD (lit "Unknown") ≠ flagship)
  let ctBlock :=
    if ct.isEmpty then some []
    else
      (mapOpt renderPRLine ((sortByCreatedDesc ct).take 3)).map fun recent =>
        [lit "**" ++ flagship ++ lit "** (" ++ natStr ct.length ++
            lit " PRs) - *" ++ role ++ lit "*",
          ([] : Str),
          lit "*Recent " ++ flagship ++ lit " contributions (last 3):*"] ++
          recent ++ [([] : Str)]
  let otherBlock :=
    if other.isEmpty then some []
    else
      (mapOpt renderPRLine (sortByCreatedDesc other)).map fun lines =>
        [lit "**Other " ++ otherHdr ++ lit " contributions:**", ([] : Str)] ++ lines
  match ctBlock, otherBlock with
  | some cb, some ob => some (cb ++ ob)
  | _, _ => none

/-- The PRs rendered individually inside a flagship organization section:
the 3 most recent flagship PRs, then all other-repository PRs most recent
first. -/
def flagshipSectionPRs (flagship : Str) (prs : List PR) : List PR :=
  (sortByCreatedDesc
      (prs.filter fun pr => decide (pr.repoNameD (lit "Unknown") = flagship))).take 3 ++
    sortByCreatedDesc
      (prs.filter fun pr => decide (pr.repoNameD (lit "Unknown") ≠ flagship))

/-- The PRs rendered individually inside one organization section of
generate_contributions.py (lines 164-304): `QuantumEngineeredSystems` shows
its 5 most recent (lines 168-197), the two flagship organizations use the
flagship policy, every other organization lists all its PRs most recent
first (lines 292-302). -/
def orgSectionPRs (org : Str) (prs : List PR) : List PR :=
  if org = lit "QuantumEngineeredSystems" then (sortByCreatedDesc prs).take 5
  else if org = lit "JuliaDynamics" then
    flagshipSectionPRs (lit "CriticalTransitions.jl") prs
  else if org = lit "qojulia" then
    flagshipSectionPRs (lit "SecondQuantizedAlgebra.jl") prs
  else sortByCreatedDesc prs

/-- All PR records rendered as individual entries anywhere in the document
built by `generate_markdown`: the Recent top-10 section (lines 99-113)
followed by the per-organization sections (lines 149-304), in document
order.  The repository sections (lines 116-147) render repository records,
never PRs. -/
def renderedPRs (all_prs : List PR) : List PR :=
  let sorted := sortByCreatedDesc (externalClosedPRs all_prs)
  sorted.take 10 ++
    (sortedOrgItems sorted).flatMap fun it => orgSectionPRs it.1 it.2

/-- The Recent Merged Contributions section's entry lines
(generate_contributions.py, lines 99-113). -/
def renderRecentSection (all_prs : List PR) : Option (List Str) :=
  mapOpt renderPRLine ((sortByCreatedDesc (externalClosedPRs all_prs)).take 10)

def urlKey : Str := lit "url"

def createdAtKey : Str := lit "createdAt"

def starsKey : Str := lit "stargazerCount"

/-- Python `f"{v}"` on the scalar values stored in repository records. -/
def pyFstr : JVal → Str
  | .jnull => lit "None"
  | .jbool b => if b then lit "True" else lit "False"
  | .jnum n => (toString n).toList
  | .jstr s => s

/-- `stars > 0` where `stars = repo.get('stargazerCount', 0)`: Python integer
comparison; booleans compare as 0/1, any other non-number raises `TypeError`
(modelled by `none`). -/
def pyGtZero : JVal → Option Bool
  | .jnum n => some (decide (0 < n))
  | .jbool b => some b
  | _ => none

/-- One repository entry of the My Open Source Projects section
(generate_contributions.py, lines 132-147): `repo['name']` and `repo['url']`
are direct subscripts (KeyError — modelled `none` — when absent, with no
placeholder fallback), `description` falls back to `'No description'`,
`stargazerCount` to `0`, and `repo.get('createdAt', '')` is parsed by
`fromisoformat`, which raises on the `''` default.  The description line is
emitted only when the description value is truthy and not the empty string
(line 142). -/
def renderRepoBlock (r : Dict) : Option (List Str) :=
  match dget r nameKey with
  | none => none
  | some name =>
    let description := dgetD r descKey (.jstr (lit "No description"))
    match dget r urlKey with
    | none => none
    | some url =>
      let stars := dgetD r starsKey (.jnum 0)
      match (match dgetD r createdAtKey (.jstr []) with
             | .jstr s => formatIsoDate s
             | _ => none) with
      | none => none
      | some created =>
        match pyGtZero stars with
        | none => none
        | some pos =>
          some ([lit "- **[" ++ pyFstr name ++ lit "](" ++ pyFstr url ++ lit ")** " ++
              (if pos then lit "⭐ " ++ pyFstr stars else [])] ++
            (if truthy description && decide (description ≠ .jstr []) then
              [lit "  - " ++ pyFstr description] else []) ++
            [lit "  - *Created: " ++ created ++ lit "*", [], lit "#", []])

/-! ### Concrete records used in counterexamples and witnesses -/

/-- A merged PR to `org/Lib.jl` with the given title, url and timestamp. -/
def mkPR (title url date repo own : String) : PR :=
  ⟨some (lit title), some (lit url), some (lit date), some (lit "merged"),
    some ⟨some (lit repo), some (lit own)⟩⟩

/-- Seven merged PRs to the JuliaDynamics flagship and two to another
JuliaDynamics repository (timestamps make `t7` the most recent flagship PR
and `o2` the most recent other PR). -/
def jdPRs : List PR :=
  [mkPR "t1" "u1" "2024-01-01T00:00:00Z" "CriticalTransitions.jl" "JuliaDynamics/CriticalTransitions.jl",
   mkPR "t2" "u2" "2024-01-02T00:00:00Z" "CriticalTransitions.jl" "JuliaDynamics/CriticalTransitions.jl",
   mkPR "t3" "u3" "2024-01-03T00:00:00Z" "CriticalTransitions.jl" "JuliaDynamics/CriticalTransitions.jl",
   mkPR "t4" "u4" "2024-01-04T00:00:00Z" "CriticalTransitions.jl" "JuliaDynamics/CriticalTransitions.jl",
   mkPR "t5" "u5" "2024-01-05T00:00:00Z" "CriticalTransitions.jl" "JuliaDynamics/CriticalTransitions.jl",
   mkPR "t6" "u6" "2024-01-06T00:00:00Z" "CriticalTransitions.jl" "JuliaDynamics/CriticalTransitions.jl",
   mkPR "t7" "u7" "2024-01-07T00:00:00Z" "CriticalTransitions.jl" "JuliaDynamics/CriticalTransitions.jl",
   mkPR "o1" "v1" "2024-02-01T00:00:00Z" "Attractors.jl" "JuliaDynamics/Attractors.jl",
   mkPR "o2" "v2" "2024-02-02T00:00:00Z" "Attractors.jl" "JuliaDynamics/Attractors.jl"]

/-- A merged external PR whose record has no title, no URL and no creation
timestamp. -/
def prNoDate : PR :=
  ⟨none, none, none, some (lit "merged"),
    some ⟨some (lit "Lib.jl"), some (lit "org/Lib.jl")⟩⟩

/-- A merged PR to the user's own namespace. -/
def prOwn : PR :=
  ⟨some (lit "own"), some (lit "w1"), some (lit "2024-04-01T00:00:00Z"),
    some (lit "merged"), some ⟨some (lit "x"), some (lit "oameye/x")⟩⟩

/-- A merged external PR missing only its title. -/
def prOnlyNoTitle : PR :=
  ⟨none, some (lit "u"), some (lit "2024-03-05T10:00:00Z"), some (lit "merged"),
    some ⟨some (lit "Lib.jl"), some (lit "org/Lib.jl")⟩⟩

/-- A merged external PR missing only its URL. -/
def prOnlyNoUrl : PR :=
  ⟨some (lit "T"), none, some (lit "2024-03-05T10:00:00Z"), some (lit "merged"),
    some ⟨some (lit "Lib.jl"), some (lit "org/Lib.jl")⟩⟩

/-- A repository record missing only its description. -/
def repNoDesc : Dict :=
  [(nameKey, JVal.jstr (lit "Lib.jl")), (urlKey, JVal.jstr (lit "https://x")),
    (createdAtKey, JVal.jstr (lit "2024-03-05T10:00:00Z")), (starsKey, JVal.jnum 2)]

/-- A repository record missing its URL. -/
def repNoUrl : Dict :=
  [(nameKey, JVal.jstr (lit "Lib.jl")),
    (createdAtKey, JVal.jstr (lit "2024-03-05T10:00:00Z"))]

/-- A repository record missing its creation timestamp. -/
def repNoDate : Dict :=
  [(nameKey, JVal.jstr (lit "Lib.jl")), (urlKey, JVal.jstr (lit "https://x"))]

/-- A repository named `foo.jl` described as `a tutorial`. -/
def fooJl : Dict :=
  [(nameKey, JVal.jstr (lit "foo.jl")), (descKey, JVal.jstr (lit "a tutorial"))]

/-- A repository named `MyWebsite`, no description. -/
def myWebsiteRepo : Dict := [(nameKey, JVal.jstr (lit "MyWebsite"))]

/-- A repository named `x` whose description mentions a website. -/
def xWebsiteRepo : Dict :=
  [(nameKey, JVal.jstr (lit "x")), (descKey, JVal.jstr (lit "my website"))]

/-- A PR record with URL `"u"` and nothing else. -/
def prU : PR := ⟨none, some (lit "u"), none, none, none⟩

/-- Repository records named `"r"`, `"a"` (with a star-like field `"s"`),
and `"b"`. -/
def repR : Dict := [(nameKey, JVal.jstr (lit "r"))]

def repA0 : Dict := [(nameKey, JVal.jstr (lit "a")), (lit "s", JVal.jnum 0)]

def repA1 : Dict := [(nameKey, JVal.jstr (lit "a")), (lit "s", JVal.jnum 1)]

def repB : Dict := [(nameKey, JVal.jstr (lit "b"))]

/-! ### Helper lemmas about dict operations -/

theorem dget_cons (k₁ : Str) (v₁ : JVal) (rest : Dict) (k : Str) :
    dget ((k₁, v₁) :: rest) k = if k₁ = k then some v₁ else dget rest k := by
  simp only [dget, List.find?_cons]
  by_cases h : k₁ = k
  · simp [h]
  · simp [h]

theorem dget_eq_none_of_not_mem_keys {d : Dict} {k : Str}
    (h : k ∉ d.map Prod.fst) : dget d k = none := by
  induction d with
  | nil => rfl
  | cons kv rest ih =>
    rcases kv with ⟨k₁, v₁⟩
    simp only [List.map_cons, List.mem_cons, not_or] at h
    rw [dget_cons, if_neg fun hh => h.1 hh.symm]
    exact ih h.2

theorem dget_map_replace_ne (d : Dict) (k : Str) (v : JVal) {k' : Str}
    (hne : k' ≠ k) :
    dget (d.map fun kv => if kv.1 = k then (k, v) else kv) k' = dget d k' := by
  induction d with
  | nil => rfl
  | cons kv rest ih =>
    rcases kv with ⟨a, b⟩
    by_cases hak : a = k
    · subst hak
      simp only [List.map_cons, if_pos rfl]
      rw [dget_cons, dget_cons, if_neg fun hh => hne hh.symm,
        if_neg fun hh => hne hh.symm, ih]
    · simp only [List.map_cons, if_neg hak]
      rw [dget_cons, dget_cons]
      by_cases hak' : a = k'
      · simp [hak']
      · rw [if_neg hak', if_neg hak', ih]

theorem dget_map_replace_eq (d : Dict) (k : Str) (v : JVal)
    (h : (d.find? fun kv => decide (kv.1 = k)).isSome) :
    dget (d.map fun kv => if kv.1 = k then (k, v) else kv) k = some v := by
  induction d with
  | nil => simp at h
  | cons kv rest ih =>
    rcases kv with ⟨a, b⟩
    by_cases hak : a = k
    · subst hak
      simp [dget_cons]
    · have hfa : decide (((a, b) : Str × JVal).1 = k) = false := decide_eq_false hak
      rw [List.find?_cons, hfa] at h
      simpa [dget_cons, hak] using ih h

theorem dget_dinsert (d : Dict) (k : Str) (v : JVal) (k' : Str) :
    dget (dinsert d k v) k' = if k' = k then some v else dget d k' := by
  unfold dinsert
  by_cases h : (d.find? fun kv => decide (kv.1 = k)).isSome
  · rw [if_pos h]
    by_cases hk : k' = k
    · rw [hk, if_pos rfl, dget_map_replace_eq d k v h]
    · rw [if_neg hk, dget_map_replace_ne d k v hk]
  · rw [if_neg h]
    have hfind : (d.find? fun kv => decide (kv.1 = k)) = none := by
      cases hf : (d.find? fun kv => decide (kv.1 = k)) with
      | none => rfl
      | some x => exact absurd (by rw [hf]; rfl) h
    by_cases hk : k' = k
    · rw [hk, if_pos rfl]
      have h1 : List.find? (fun kv => decide (kv.1 = k)) [(k, v)] = some (k, v) := by
        simp [List.find?]
      simp only [dget, List.find?_append, hfind, h1, Option.none_or, Option.map_some']
    · rw [if_neg hk]
      have h1 : List.find? (fun kv => decide (kv.1 = k')) [(k, v)] = none := by
        simp [List.find?, Ne.symm hk]
      simp only [dget, List.find?_append, h1, Option.or_none]

theorem dupdate_nil (d : Dict) : dupdate d [] = d := rfl

theorem dupdate_cons (d : Dict) (k₁ : Str) (v₁ : JVal) (rest : Dict) :
    dupdate d ((k₁, v₁) :: rest) = dupdate (dinsert d k₁ v₁) rest := rfl

/-- `d.update(other)` looks up like `other` first, falling back to `d`:
every key present in `other` (with any value, including `null`, empty
strings, `0`, `false`) overwrites, and keys absent from `other` keep their
value from `d`.  Requires the incoming record to be a well-formed dict
(pairwise-distinct keys). -/
theorem dget_dupdate (d other : Dict) (k : Str)
    (h : (other.map Prod.fst).Nodup) :
    dget (dupdate d other) k = (dget other k).or (dget d k) := by
  induction other generalizing d with
  | nil => simp [dupdate_nil, dget, Option.none_or]
  | cons kv rest ih =>
    rcases kv with ⟨k₁, v₁⟩
    have hk₁ : k₁ ∉ rest.map Prod.fst := (List.nodup_cons.mp h).1
    have hnd : (rest.map Prod.fst).Nodup := (List.nodup_cons.mp h).2
    rw [dupdate_cons, ih (dinsert d k₁ v₁) hnd, dget_dinsert, dget_cons]
    by_cases hk : k₁ = k
    · rw [← hk]
      rw [if_pos rfl, if_pos rfl, dget_eq_none_of_not_mem_keys hk₁, Option.none_or]
      rfl
    · have hk' : ¬(k = k₁) := fun hh => hk hh.symm
      rw [if_neg hk, if_neg hk']

theorem pyGet_dupdate_name {r g : Dict} (hg : (g.map Prod.fst).Nodup)
    (hr : pyGet r nameKey = pyGet g nameKey) :
    pyGet (dupdate r g) nameKey = pyGet r nameKey := by
  simp only [pyGet, dgetD] at hr ⊢
  rw [dget_dupdate r g nameKey hg]
  cases h : dget g nameKey with
  | none => rw [Option.none_or]
  | some v =>
    rw [h] at hr
    simp only [Option.getD_some] at hr
    simp [hr]

theorem set_eq_self_of_getElem? {α : Type} {l : List α} {i : Nat} {a : α}
    (h : l[i]? = some a) : l.set i a = l := by
  induction l generalizing i with
  | nil => simp at h
  | cons x xs ih =>
    cases i with
    | zero =>
      simp only [List.getElem?_cons_zero, Option.some.injEq] at h
      rw [← h]
      rfl
    | succ n =>
      simp only [List.getElem?_cons_succ] at h
      simp only [List.set_cons_succ]
      rw [ih h]

/-! ### Helper lemmas about `lastNameIdx` and `merge_repos` -/

theorem lastNameIdx_cons (r : Dict) (rs : List Dict) (rn : JVal) :
    lastNameIdx (r :: rs) rn =
      match lastNameIdx rs rn with
      | some i => some (i + 1)
      | none => if pyGet r nameKey = rn then some 0 else none := rfl

theorem lastNameIdx_eq_none_iff {l : List Dict} {rn : JVal} :
    lastNameIdx l rn = none ↔ rn ∉ repoNames l := by
  induction l with
  | nil => simp [lastNameIdx, repoNames]
  | cons r rs ih =>
    rw [lastNameIdx_cons]
    constructor
    · intro h
      cases h' : lastNameIdx rs rn with
      | some i => rw [h'] at h; exact absurd h (by simp)
      | none =>
        rw [h'] at h
        by_cases hr : pyGet r nameKey = rn
        · rw [if_pos hr] at h; exact absurd h (by simp)
        · simp only [repoNames, List.map_cons, List.mem_cons, not_or]
          exact ⟨fun hh => hr hh.symm, ih.mp h'⟩
    · intro h
      simp only [repoNames, List.map_cons, List.mem_cons, not_or] at h
      have h2 : lastNameIdx rs rn = none := ih.mpr h.2
      rw [h2]
      have hne : ¬(pyGet r nameKey = rn) := fun hh => h.1 hh.symm
      exact if_neg hne

theorem lastNameIdx_spec {l : List Dict} {rn : JVal} {i : Nat}
    (h : lastNameIdx l rn = some i) :
    i < l.length ∧ (repoNames l)[i]? = some rn := by
  induction l generalizing i with
  | nil => simp [lastNameIdx] at h
  | cons r rs ih =>
    rw [lastNameIdx_cons] at h
    cases h' : lastNameIdx rs rn with
    | some j =>
      rw [h'] at h
      have hij : i = j + 1 := by
        have := h.symm
        simp only [Option.some.injEq] at this
        omega
      subst hij
      obtain ⟨hlen, hget⟩ := ih h'
      refine ⟨by simpa using Nat.succ_lt_succ hlen, ?_⟩
      have hcons : repoNames (r :: rs) = pyGet r nameKey :: repoNames rs := rfl
      rw [hcons, List.getElem?_cons_succ]
      exact hget
    | none =>
      rw [h'] at h
      by_cases hr : pyGet r nameKey = rn
      · rw [if_pos hr] at h
        have hi : i = 0 := by
          have := h.symm
          simp only [Option.some.injEq] at this
          omega
        subst hi
        have hcons : repoNames (r :: rs) = pyGet r nameKey :: repoNames rs := rfl
        refine ⟨by simp, ?_⟩
        rw [hcons, List.getElem?_cons_zero, hr]
      · rw [if_neg hr] at h
        exact absurd h (by simp)

theorem repoNames_append (l₁ l₂ : List Dict) :
    repoNames (l₁ ++ l₂) = repoNames l₁ ++ repoNames l₂ := by
  simp [repoNames]

theorem merge_repos_fold_names (existing : List Dict) (new : List Dict) :
    ∀ (acc : List Dict),
      (∀ g ∈ new, (g.map Prod.fst).Nodup) →
      (∃ B, repoNames acc = repoNames existing ++ B) →
      repoNames (new.foldl (mergeRepoStep existing) acc) =
        repoNames acc ++
          repoNames (new.filter fun g =>
            (lastNameIdx existing (pyGet g nameKey)).isNone) := by
  induction new with
  | nil => intro acc _ _; simp [repoNames]
  | cons g gs ih =>
    intro acc hwf hacc
    obtain ⟨B, hB⟩ := hacc
    rw [List.foldl_cons]
    cases h : lastNameIdx existing (pyGet g nameKey) with
    | some i =>
      obtain ⟨hlen, hidx⟩ := lastNameIdx_spec h
      have hlen' : i < (repoNames existing).length := by
        simpa [repoNames] using hlen
      have hacc_i : (repoNames acc)[i]? = some (pyGet g nameKey) := by
        rw [hB, List.getElem?_append_left hlen', hidx]
      obtain ⟨r, hr, hrn⟩ : ∃ r, acc[i]? = some r ∧
          pyGet r nameKey = pyGet g nameKey := by
        simp only [repoNames, List.getElem?_map] at hacc_i
        cases hai : acc[i]? with
        | none => rw [hai] at hacc_i; simp at hacc_i
        | some r =>
          rw [hai] at hacc_i
          exact ⟨r, rfl, by simpa using hacc_i⟩
      have hstep : mergeRepoStep existing acc g = acc.set i (dupdate r g) := by
        simp [mergeRepoStep, h, List.getD_eq_getElem?_getD, hr]
      have hnames : repoNames (acc.set i (dupdate r g)) = repoNames acc := by
        have hkeep : pyGet (dupdate r g) nameKey = pyGet g nameKey := by
          rw [pyGet_dupdate_name (hwf g (by simp)) hrn, hrn]
        simp only [repoNames, List.map_set, hkeep]
        exact set_eq_self_of_getElem? hacc_i
      rw [hstep, ih (acc.set i (dupdate r g))
        (fun g' hg' => hwf g' (by simp [hg'])) ⟨B, by rw [hnames, hB]⟩, hnames]
      rw [List.filter_cons, if_neg (by simp [h])]
    | none =>
      have hstep : mergeRepoStep existing acc g = acc ++ [g] := by
        simp [mergeRepoStep, h]
      have hnames : repoNames (acc ++ [g]) =
          repoNames acc ++ [pyGet g nameKey] := by
        simp [repoNames_append, repoNames]
      rw [hstep, ih (acc ++ [g]) (fun g' hg' => hwf g' (by simp [hg']))
        ⟨B ++ [pyGet g nameKey], by rw [hnames, hB, List.append_assoc]⟩]
      rw [hnames, List.filter_cons, if_pos (by simp [h])]
      simp only [repoNames, List.map_cons, List.append_assoc, List.singleton_append]

/-! ### Claim theorems for the repository reconciler -/

/-- **C4** (counterexample). The claim quantifies over incoming lists that may
contain two new records sharing a name; those records are *both* appended,
because the name-lookup dict is built once from `existing_repos` and appended
records are never added to it.  Here the existing list `[]` has
pairwise-distinct names, the incoming list repeats the record named `"r"`,
and the result contains two records with the same short name. -/
theorem merge_repos_dup_incoming_counterexample :
    (repoNames ([] : List Dict)).Nodup ∧
    ¬ (repoNames (merge_repos [] [repR, repR])).Nodup := by
  constructor
  · simp [repoNames]
  · decide

/-- **C4** (amended). If the incoming records are well-formed dicts, the
existing names are pairwise distinct and the incoming names are pairwise
distinct, then the merged list contains no two records with the same short
name: matching records are overwritten in place, never duplicated. -/
theorem merge_repos_name_nodup (e n : List Dict)
    (hwf : ∀ g ∈ n, (g.map Prod.fst).Nodup)
    (hE : (repoNames e).Nodup) (hI : (repoNames n).Nodup) :
    (repoNames (merge_repos e n)).Nodup := by
  have hfold := merge_repos_fold_names e n e hwf ⟨[], by simp⟩
  show (repoNames (n.foldl (mergeRepoStep e) e)).Nodup
  rw [hfold, List.nodup_append]
  refine ⟨hE, ?_, ?_⟩
  · exact List.Sublist.nodup
      (List.Sublist.map (fun r => pyGet r nameKey) (List.filter_sublist n)) hI
  · intro x hx hx'
    simp only [repoNames, List.mem_map] at hx'
    obtain ⟨g, hg, rfl⟩ := hx'
    rcases List.mem_filter.mp hg with ⟨_, hnone⟩
    have hnone' : lastNameIdx e (pyGet g nameKey) = none := by
      cases hxx : lastNameIdx e (pyGet g nameKey) with
      | none => rfl
      | some i => rw [hxx] at hnone; simp at hnone
    exact lastNameIdx_eq_none_iff.mp hnone' hx

/-- Witness for `merge_repos_name_nodup` at concrete inputs. -/
theorem merge_repos_name_nodup_witness :
    (∀ g ∈ [repA1, repB], (g.map Prod.fst).Nodup) ∧
    (repoNames [repA0]).Nodup ∧ (repoNames [repA1, repB]).Nodup ∧
    (repoNames (merge_repos [repA0] [repA1, repB])).Nodup :=
  ⟨by decide, by decide, by decide,
    merge_repos_name_nodup [repA0] [repA1, repB] (by decide) (by decide) (by decide)⟩

/-- **C5** (confirmed). For a matching incoming record the stored record is
replaced in place by its full dict-update — every key present in the incoming
record overwrites, including to falsy/empty values, and absent keys keep the
stored value —, the record count and all other positions are unchanged; and an
incoming batch of records whose names match nothing is appended after the
pre-existing records in encounter order. -/
theorem merge_repos_update_policy (e : List Dict) :
    (∀ (g : Dict) (i : Nat), (g.map Prod.fst).Nodup →
        lastNameIdx e (pyGet g nameKey) = some i →
        merge_repos e [g] = e.set i (dupdate (e.getD i []) g) ∧
        (merge_repos e [g]).length = e.length ∧
        (∀ j, j ≠ i → (merge_repos e [g])[j]? = e[j]?) ∧
        (∀ k, dget (dupdate (e.getD i []) g) k =
          (dget g k).or (dget (e.getD i []) k))) ∧
    (∀ n : List Dict, (∀ g ∈ n, pyGet g nameKey ∉ repoNames e) →
        merge_repos e n = e ++ n) := by
  constructor
  · intro g i hg hidx
    have hone : merge_repos e [g] = e.set i (dupdate (e.getD i []) g) := by
      simp [merge_repos, mergeRepoStep, hidx]
    refine ⟨hone, ?_, ?_, fun k => dget_dupdate _ g k hg⟩
    · rw [hone, List.length_set]
    · intro j hj
      rw [hone, List.getElem?_set, if_neg fun hh => hj hh.symm]
  · intro n hn
    suffices haux : ∀ (m acc : List Dict),
        (∀ g ∈ m, pyGet g nameKey ∉ repoNames e) →
        m.foldl (mergeRepoStep e) acc = acc ++ m by
      exact haux n e hn
    intro m
    induction m with
    | nil => intro acc _; simp
    | cons g gs ih =>
      intro acc hm
      rw [List.foldl_cons]
      have hnone : lastNameIdx e (pyGet g nameKey) = none :=
        lastNameIdx_eq_none_iff.mpr (hm g (by simp))
      have hstep : mergeRepoStep e acc g = acc ++ [g] := by
        simp [mergeRepoStep, hnone]
      rw [hstep, ih (acc ++ [g]) fun g' hg' => hm g' (by simp [hg'])]
      simp

/-- Witness for `merge_repos_update_policy` at concrete inputs: updating the
record named `"a"` replaces its star field in place. -/
theorem merge_repos_update_policy_witness :
    ((repA1.map Prod.fst).Nodup ∧
      lastNameIdx [repA0, repB] (pyGet repA1 nameKey) = some 0 ∧
      merge_repos [repA0, repB] [repA1] =
        [repA0, repB].set 0 (dupdate ([repA0, repB].getD 0 []) repA1)) ∧
    ((∀ g ∈ [repB], pyGet g nameKey ∉ repoNames [repA0]) ∧
      merge_repos [repA0] [repB] = [repA0] ++ [repB]) := by
  refine ⟨⟨by decide, by decide, ?_⟩, ⟨by decide, ?_⟩⟩
  · exact ((merge_repos_update_policy [repA0, repB]).1 repA1 0 (by decide) (by decide)).1
  · exact (merge_repos_update_policy [repA0]).2 [repB] (by decide)

/-! ### Helper lemmas about `merge_prs` -/

theorem merge_prs_def (e i : List PR) :
    merge_prs e i = e ++ i.filter fun pr => decide (pr.url ∉ e.map PR.url) := rfl

theorem mem_map_url_merge_prs {e i : List PR} {u : Option Str} :
    u ∈ (merge_prs e i).map PR.url ↔ u ∈ e.map PR.url ∨ u ∈ i.map PR.url := by
  rw [merge_prs_def, List.map_append, List.mem_append]
  constructor
  · rintro (h | h)
    · exact Or.inl h
    · rcases List.mem_map.mp h with ⟨p, hp, rfl⟩
      exact Or.inr (List.mem_map.mpr ⟨p, (List.mem_filter.mp hp).1, rfl⟩)
  · rintro (h | h)
    · exact Or.inl h
    · rcases List.mem_map.mp h with ⟨p, hp, rfl⟩
      by_cases hu : p.url ∈ e.map PR.url
      · exact Or.inl hu
      · exact Or.inr (List.mem_map.mpr ⟨p, List.mem_filter.mpr ⟨hp, decide_eq_true hu⟩, rfl⟩)

/-! ### Claim theorems for the PR reconciler -/

/-- **C2** (counterexample). The claim quantifies over incoming lists that may
contain two records sharing a URL; for such an incoming list the merged result
*does* contain two records with the same URL, because the set of known URLs is
computed once from `existing_prs` and never extended while appending.  Here the
existing list `[]` has pairwise-distinct URLs, the incoming list repeats the
record with URL `"u"`, and the result's URL list is not duplicate-free. -/
theorem merge_prs_dup_incoming_counterexample :
    (([] : List PR).map PR.url).Nodup ∧
    ¬ ((merge_prs [] [prU, prU]).map PR.url).Nodup := by
  constructor
  · simp
  · decide

/-- **C2** (amended). If the existing URLs are pairwise distinct *and* the
incoming URLs are pairwise distinct, then `merge_prs` yields a list with no
two records sharing a URL, and its URL set is exactly the union of the
existing and incoming URL sets.  (The union part needs no distinctness at
all.) -/
theorem merge_prs_url_nodup_union (e i : List PR)
    (hE : (e.map PR.url).Nodup) (hI : (i.map PR.url).Nodup) :
    ((merge_prs e i).map PR.url).Nodup ∧
    ∀ u, u ∈ (merge_prs e i).map PR.url ↔ u ∈ e.map PR.url ∨ u ∈ i.map PR.url := by
  refine ⟨?_, fun u => mem_map_url_merge_prs⟩
  rw [merge_prs_def, List.map_append, List.nodup_append]
  refine ⟨hE, ?_, ?_⟩
  · exact List.Sublist.nodup (List.Sublist.map PR.url (List.filter_sublist i)) hI
  · intro u hu hu'
    rcases List.mem_map.mp hu' with ⟨p, hp, rfl⟩
    rcases List.mem_filter.mp hp with ⟨_, hdec⟩
    exact of_decide_eq_true hdec hu

/-- Witness for `merge_prs_url_nodup_union` at concrete inputs. -/
theorem merge_prs_url_nodup_union_witness :
    (([prU] : List PR).map PR.url).Nodup ∧
    (([⟨none, some (lit "v"), none, none, none⟩] : List PR).map PR.url).Nodup ∧
    (((merge_prs [prU] [⟨none, some (lit "v"), none, none, none⟩]).map PR.url).Nodup ∧
      ∀ u, u ∈ (merge_prs [prU] [⟨none, some (lit "v"), none, none, none⟩]).map PR.url ↔
        u ∈ ([prU] : List PR).map PR.url ∨
          u ∈ ([⟨none, some (lit "v"), none, none, none⟩] : List PR).map PR.url) :=
  ⟨by decide, by decide,
    merge_prs_url_nodup_union [prU] [⟨none, some (lit "v"), none, none, none⟩]
      (by decide) (by decide)⟩

/-- **C8** (confirmed). Merging the same incoming list twice yields exactly the
result of merging it once: after the first merge every incoming URL is present
in the merged list, so the second merge appends nothing. -/
theorem merge_prs_idempotent (e i : List PR) :
    merge_prs (merge_prs e i) i = merge_prs e i := by
  rw [merge_prs_def (merge_prs e i) i]
  have h : (i.filter fun pr => decide (pr.url ∉ (merge_prs e i).map PR.url)) = [] := by
    rw [List.filter_eq_nil_iff]
    intro p hp
    simp only [decide_eq_true_iff, not_not]
    exact mem_map_url_merge_prs.mpr (Or.inr (List.mem_map.mpr ⟨p, hp, rfl⟩))
  rw [h, List.append_nil]

/-- **C9** (confirmed). The merged list is never shorter than the existing
list, with equality exactly when every incoming record's URL already occurs
among the existing records' URLs. -/
theorem merge_prs_length_monotone (e i : List PR) :
    e.length ≤ (merge_prs e i).length ∧
    ((merge_prs e i).length = e.length ↔ ∀ p ∈ i, p.url ∈ e.map PR.url) := by
  rw [merge_prs_def, List.length_append]
  constructor
  · exact Nat.le_add_right _ _
  · rw [Nat.add_eq_left, List.length_eq_zero, List.filter_eq_nil_iff]
    simp [decide_eq_true_iff]

/-! ### Helper lemmas about categorization -/

theorem lowerChar_eq_of_upper {c : Char} (h : 65 ≤ c.toNat ∧ c.toNat ≤ 90) :
    lowerChar c = Char.ofNat (c.toNat + 32) := by
  unfold lowerChar
  exact if_pos h

theorem lowerChar_eq_of_not_upper {c : Char} (h : ¬(65 ≤ c.toNat ∧ c.toNat ≤ 90)) :
    lowerChar c = c := by
  unfold lowerChar
  exact if_neg h

theorem lowerChar_fixed_of_lower {n : Nat} (h1 : 97 ≤ n) (h2 : n ≤ 122) :
    lowerChar (Char.ofNat n) = Char.ofNat n := by
  interval_cases n <;> decide

theorem lowerChar_idem (c : Char) : lowerChar (lowerChar c) = lowerChar c := by
  by_cases h : 65 ≤ c.toNat ∧ c.toNat ≤ 90
  · rw [lowerChar_eq_of_upper h]
    exact lowerChar_fixed_of_lower (by omega) (by omega)
  · rw [lowerChar_eq_of_not_upper h]
    exact lowerChar_eq_of_not_upper h

theorem lowerStr_idem (s : Str) : lowerStr (lowerStr s) = lowerStr s := by
  simp only [lowerStr, List.map_map]
  exact List.map_congr_left fun c _ => lowerChar_idem c

theorem checkKeywords_lower (name d : Str) (ks : List Str) :
    checkKeywords (lowerStr name) (.jstr (lowerStr d)) ks =
      checkKeywords name (.jstr d) ks := by
  induction ks with
  | nil => rfl
  | cons k ks ih =>
    simp only [checkKeywords, lowerStr_idem]
    rw [ih]

theorem categorize_cons (r : Dict) (rs : List Dict) :
    categorize_repositories (r :: rs) =
      match classifyRepo r, categorize_repositories rs with
      | some b, some cats => some (insertBucket b r cats)
      | _, _ => none := rfl

theorem mem_insertBucket {b₀ : Option Bucket} {r₀ r : Dict} {c : Categories}
    {b : Bucket} :
    r ∈ (insertBucket b₀ r₀ c).bucket b ↔
      (b₀ = some b ∧ r = r₀) ∨ r ∈ c.bucket b := by
  cases b₀ with
  | none => simp [insertBucket]
  | some bb => cases bb <;> cases b <;> simp [insertBucket, Categories.bucket]

theorem mem_bucket_categorize :
    ∀ {repos : List Dict} {cats : Categories},
      categorize_repositories repos = some cats →
      ∀ (b : Bucket) (r : Dict),
        r ∈ cats.bucket b ↔ r ∈ repos ∧ classifyRepo r = some (some b) := by
  intro repos
  induction repos with
  | nil =>
    intro cats h b r
    have hcats : (⟨[], [], [], [], []⟩ : Categories) = cats := by
      simpa [categorize_repositories] using h
    subst hcats
    cases b <;> simp [Categories.bucket]
  | cons r₀ rs ih =>
    intro cats h b r
    rw [categorize_cons] at h
    cases hc : classifyRepo r₀ with
    | none => rw [hc] at h; exact absurd h (by simp)
    | some b₀ =>
      rw [hc] at h
      cases hrs : categorize_repositories rs with
      | none => rw [hrs] at h; exact absurd h (by simp)
      | some cats' =>
        rw [hrs] at h
        have hcats : insertBucket b₀ r₀ cats' = cats := by
          simpa using h
        subst hcats
        rw [mem_insertBucket, ih hrs b r]
        constructor
        · rintro (⟨hb, rfl⟩ | ⟨hr, hcl⟩)
          · exact ⟨List.mem_cons_self _ _, by rw [hc, hb]⟩
          · exact ⟨List.mem_cons_of_mem _ hr, hcl⟩
        · rintro ⟨hr, hcl⟩
          rcases List.mem_cons.mp hr with rfl | hr'
          · left
            refine ⟨?_, rfl⟩
            rw [hc] at hcl
            exact (Option.some.injEq _ _).mp hcl
          · exact Or.inr ⟨hr', hcl⟩

/-! ### Claim theorems for categorization -/

/-- **C7** (confirmed). Categorization assigns every repository to at most one
of the five buckets (two bucket memberships force the same bucket, because
membership determines the outcome of the single `if/elif` priority chain); a
repository on which no rule fired (`classifyRepo r = some none`, which also
covers skipped private/fork records) lands in no bucket, hence is omitted from
the report; and the priority order puts `foo.jl` described as `a tutorial`
into Julia Packages, not Documentation & Tutorials. -/
theorem categorize_repositories_exclusive (repos : List Dict) (cats : Categories)
    (h : categorize_repositories repos = some cats) :
    (∀ (r : Dict) (b b' : Bucket),
        r ∈ cats.bucket b → r ∈ cats.bucket b' → b = b') ∧
    (∀ r : Dict, classifyRepo r = some none → ∀ b, r ∉ cats.bucket b) ∧
    categorize_repositories [fooJl] = some ⟨[fooJl], [], [], [], []⟩ := by
  refine ⟨?_, ?_, by decide⟩
  · intro r b b' hb hb'
    have h1 := ((mem_bucket_categorize h b r).mp hb).2
    have h2 := ((mem_bucket_categorize h b' r).mp hb').2
    rw [h1] at h2
    exact Option.some_injective _ ((Option.some.injEq _ _).mp h2)
  · intro r hr b hmem
    have h1 := ((mem_bucket_categorize h b r).mp hmem).2
    rw [hr] at h1
    simp at h1

/-- Witness for `categorize_repositories_exclusive` at a concrete input. -/
theorem categorize_repositories_exclusive_witness :
    categorize_repositories [fooJl, myWebsiteRepo] =
      some ⟨[fooJl], [], [], [], []⟩ ∧
    ((∀ (r : Dict) (b b' : Bucket),
        r ∈ (⟨[fooJl], [], [], [], []⟩ : Categories).bucket b →
        r ∈ (⟨[fooJl], [], [], [], []⟩ : Categories).bucket b' → b = b') ∧
      (∀ r : Dict, classifyRepo r = some none →
        ∀ b, r ∉ (⟨[fooJl], [], [], [], []⟩ : Categories).bucket b) ∧
      categorize_repositories [fooJl] = some ⟨[fooJl], [], [], [], []⟩) :=
  ⟨by decide,
    categorize_repositories_exclusive [fooJl, myWebsiteRepo] _ (by decide)⟩

/-- **C10** (confirmed). The keyword rules of the Documentation, Research and
Tools buckets test lowercased name and description (so pre-lowercasing the
inputs never changes their outcome), while the Personal Projects rule tests
the raw name only, case-sensitively: `"MyWebsite"` fails it while its
lowercasing passes it, a repository whose *description* says `my website`
matches no rule, and the repository named `"MyWebsite"` is assigned no bucket
at all, hence omitted from the report. -/
theorem categorize_case_sensitivity :
    (∀ (name d : Str) (ks : List Str),
        checkKeywords (lowerStr name) (.jstr (lowerStr d)) ks =
          checkKeywords name (.jstr d) ks) ∧
    personalMatch (lit "MyWebsite") = false ∧
    personalMatch (lowerStr (lit "MyWebsite")) = true ∧
    classifyRepo xWebsiteRepo = some none ∧
    categorize_repositories [myWebsiteRepo] = some ⟨[], [], [], [], []⟩ := by
  refine ⟨checkKeywords_lower, by decide, by decide, by decide, by decide⟩

/-! ### Helper lemmas for the report builder -/

theorem strLE_total : ∀ a b : Str, (strLE a b || strLE b a) = true := by
  intro a
  induction a with
  | nil => intro b; simp [strLE]
  | cons x xs ih =>
    intro b
    cases b with
    | nil => simp [strLE]
    | cons y ys =>
      simp only [strLE]
      by_cases hxy : x = y
      · subst hxy
        simp only [if_pos rfl]
        exact ih ys
      · rw [if_neg hxy, if_neg fun hh => hxy hh.symm]
        rcases lt_or_gt_of_ne hxy with hlt | hgt
        · simp [hlt]
        · simp [hgt]

theorem strLE_trans : ∀ a b c : Str, strLE a b = true → strLE b c = true →
    strLE a c = true := by
  intro a
  induction a with
  | nil => intro b c _ _; rfl
  | cons x xs ih =>
    intro b c hab hbc
    cases b with
    | nil => simp [strLE] at hab
    | cons y ys =>
      cases c with
      | nil => simp [strLE] at hbc
      | cons z zs =>
        simp only [strLE] at hab hbc ⊢
        by_cases hxy : x = y
        · subst hxy
          rw [if_pos rfl] at hab
          by_cases hyz : x = z
          · subst hyz
            rw [if_pos rfl] at hbc
            rw [if_pos rfl]
            exact ih ys zs hab hbc
          · rw [if_neg hyz] at hbc
            rw [if_neg hyz]
            exact hbc
        · rw [if_neg hxy] at hab
          have hxy' : x < y := of_decide_eq_true hab
          by_cases hyz : y = z
          · rw [← hyz, if_neg hxy]
            exact hab
          · have hyz' : y < z := of_decide_eq_true (by rwa [if_neg hyz] at hbc)
            have hxz : x < z := lt_trans hxy' hyz'
            rw [if_neg (ne_of_lt hxz)]
            exact decide_eq_true hxz

theorem prCreatedDesc_trans (a b c : PR) (h1 : prCreatedDesc a b = true)
    (h2 : prCreatedDesc b c = true) : prCreatedDesc a c = true :=
  strLE_trans _ _ _ h2 h1

theorem prCreatedDesc_total (a b : PR) :
    (prCreatedDesc a b || prCreatedDesc b a) = true :=
  strLE_total _ _

theorem mem_insertStable {α : Type} {le : α → α → Bool} {a x : α} :
    ∀ {l : List α}, x ∈ insertStable le a l ↔ x = a ∨ x ∈ l := by
  intro l
  induction l with
  | nil => simp [insertStable]
  | cons b bs ih =>
    simp only [insertStable]
    by_cases h : le a b
    · simp [h]
    · simp only [h, Bool.false_eq_true, if_false, List.mem_cons, ih]
      tauto

theorem mem_sortStable {α : Type} {le : α → α → Bool} {x : α} :
    ∀ {l : List α}, x ∈ sortStable le l ↔ x ∈ l := by
  intro l
  induction l with
  | nil => simp [sortStable]
  | cons a as ih =>
    simp only [sortStable, mem_insertStable, ih, List.mem_cons]

theorem length_insertStable {α : Type} (le : α → α → Bool) (a : α) :
    ∀ l : List α, (insertStable le a l).length = l.length + 1 := by
  intro l
  induction l with
  | nil => rfl
  | cons b bs ih =>
    simp only [insertStable]
    by_cases h : le a b
    · simp [h]
    · simp only [h, Bool.false_eq_true, if_false, List.length_cons, ih]

theorem length_sortStable {α : Type} (le : α → α → Bool) :
    ∀ l : List α, (sortStable le l).length = l.length := by
  intro l
  induction l with
  | nil => rfl
  | cons a as ih =>
    simp only [sortStable, length_insertStable, ih, List.length_cons]

theorem pairwise_insertStable {α : Type} {le : α → α → Bool}
    (htrans : ∀ a b c, le a b = true → le b c = true → le a c = true)
    (htotal : ∀ a b, (le a b || le b a) = true)
    (a : α) :
    ∀ {l : List α}, l.Pairwise (fun x y => le x y = true) →
      (insertStable le a l).Pairwise (fun x y => le x y = true) := by
  intro l
  induction l with
  | nil => intro _; simp [insertStable]
  | cons b bs ih =>
    intro hp
    rcases List.pairwise_cons.mp hp with ⟨hb, hbs⟩
    simp only [insertStable]
    by_cases h : le a b
    · rw [if_pos h]
      refine List.pairwise_cons.mpr ⟨?_, hp⟩
      intro y hy
      rcases List.mem_cons.mp hy with rfl | hy'
      · exact h
      · exact htrans a b y h (hb y hy')
    · rw [if_neg h]
      refine List.pairwise_cons.mpr ⟨?_, ih hbs⟩
      intro y hy
      rcases mem_insertStable.mp hy with heq | hy'
      · subst heq
        have htot := htotal y b
        rw [Bool.or_eq_true] at htot
        rcases htot with h1 | h2
        · exact absurd h1 h
        · exact h2
      · exact hb y hy'

theorem sortStable_sorted {α : Type} {le : α → α → Bool}
    (htrans : ∀ a b c, le a b = true → le b c = true → le a c = true)
    (htotal : ∀ a b, (le a b || le b a) = true) :
    ∀ l : List α, (sortStable le l).Pairwise fun x y => le x y = true := by
  intro l
  induction l with
  | nil => simp [sortStable]
  | cons a as ih => exact pairwise_insertStable htrans htotal a ih

theorem sortByCreatedDesc_sorted (prs : List PR) :
    (sortByCreatedDesc prs).Pairwise fun a b => prCreatedDesc a b = true :=
  sortStable_sorted prCreatedDesc_trans prCreatedDesc_total prs

theorem mem_sortByCreatedDesc {prs : List PR} {pr : PR} :
    pr ∈ sortByCreatedDesc prs ↔ pr ∈ prs :=
  mem_sortStable

theorem mapOpt_length {α β : Type} {f : α → Option β} :
    ∀ {l : List α} {r : List β}, mapOpt f l = some r → r.length = l.length := by
  intro l
  induction l with
  | nil =>
    intro r h
    have hr : ([] : List β) = r := by injection h
    subst hr
    rfl
  | cons a as ih =>
    intro r h
    simp only [mapOpt] at h
    cases hfa : f a with
    | none => rw [hfa] at h; simp at h
    | some b =>
      rw [hfa] at h
      cases hrest : mapOpt f as with
      | none => rw [hrest] at h; simp at h
      | some bs =>
        rw [hrest] at h
        have hr : b :: bs = r := by injection h
        rw [← hr]
        simp [ih hrest]

theorem mapOpt_mem {α β : Type} {f : α → Option β} :
    ∀ {l : List α} {r : List β}, mapOpt f l = some r →
      ∀ b ∈ r, ∃ a ∈ l, f a = some b := by
  intro l
  induction l with
  | nil =>
    intro r h b hb
    have hr : ([] : List β) = r := by injection h
    rw [← hr] at hb
    simp at hb
  | cons a as ih =>
    intro r h b hb
    simp only [mapOpt] at h
    cases hfa : f a with
    | none => rw [hfa] at h; simp at h
    | some b' =>
      rw [hfa] at h
      cases hrest : mapOpt f as with
      | none => rw [hrest] at h; simp at h
      | some bs =>
        rw [hrest] at h
        have hr : b' :: bs = r := by injection h
        rw [← hr] at hb
        rcases List.mem_cons.mp hb with rfl | hb'
        · exact ⟨a, List.mem_cons_self _ _, hfa⟩
        · rcases ih hrest b hb' with ⟨a', ha', hfa'⟩
          exact ⟨a', List.mem_cons_of_mem _ ha', hfa'⟩

theorem renderPRLine_head? {pr : PR} {l : Str} (h : renderPRLine pr = some l) :
    l.head? = some '-' := by
  simp only [renderPRLine, Option.map_eq_some'] at h
  rcases h with ⟨d, _, rfl⟩
  rfl

theorem not_indent_of_ne_space {l : Str} (h : l.head? ≠ some ' ') :
    ¬ (lit "  - ") <+: l := by
  rintro ⟨s, hs⟩
  apply h
  rw [← hs]
  rfl

theorem mem_of_mem_flagshipSectionPRs {f : Str} {prs : List PR} {pr : PR}
    (h : pr ∈ flagshipSectionPRs f prs) : pr ∈ prs := by
  simp only [flagshipSectionPRs] at h
  rcases List.mem_append.mp h with h1 | h2
  · exact (List.mem_filter.mp (mem_sortByCreatedDesc.mp (List.mem_of_mem_take h1))).1
  · exact (List.mem_filter.mp (mem_sortByCreatedDesc.mp h2)).1

theorem mem_of_mem_orgSectionPRs {o : Str} {prs : List PR} {pr : PR}
    (h : pr ∈ orgSectionPRs o prs) : pr ∈ prs := by
  simp only [orgSectionPRs] at h
  split_ifs at h
  · exact mem_sortByCreatedDesc.mp (List.mem_of_mem_take h)
  · exact mem_of_mem_flagshipSectionPRs h
  · exact mem_of_mem_flagshipSectionPRs h
  · exact mem_sortByCreatedDesc.mp h

/-! ### Claim theorems for the report builder: filtering and fallbacks -/

/-- **C6** (confirmed). A PR whose owning-repository full name starts with
`oameye/`, or whose state is not `merged`, is rendered in no PR entry of the
document: every PR section draws its records from the filtered
`external_closed_prs` list. -/
theorem rendered_prs_external_merged (all_prs : List PR) (pr : PR)
    (h : startsWithOameye pr = true ∨ pr.state ≠ some (lit "merged")) :
    pr ∉ renderedPRs all_prs := by
  intro hmem
  have hex : pr ∈ externalClosedPRs all_prs := by
    simp only [renderedPRs] at hmem
    rcases List.mem_append.mp hmem with h1 | h2
    · exact mem_sortByCreatedDesc.mp (List.mem_of_mem_take h1)
    · rcases List.mem_flatMap.mp h2 with ⟨it, hit, hpr⟩
      have h3 : pr ∈ it.2 := mem_of_mem_orgSectionPRs hpr
      have h4 : it ∈ orgItems (sortByCreatedDesc (externalClosedPRs all_prs)) :=
        mem_sortStable.mp hit
      rcases List.mem_map.mp h4 with ⟨o, _, rfl⟩
      exact mem_sortByCreatedDesc.mp (List.mem_filter.mp h3).1
  rcases List.mem_filter.mp hex with ⟨_, hcond⟩
  rw [Bool.and_eq_true] at hcond
  rcases h with h1 | h2
  · rw [h1] at hcond
    simp at hcond
  · exact h2 (of_decide_eq_true hcond.2)

/-- Witness for `rendered_prs_external_merged`: a merged PR to `oameye/x` is
rendered nowhere. -/
theorem rendered_prs_external_merged_witness :
    (startsWithOameye prOwn = true ∨ prOwn.state ≠ some (lit "merged")) ∧
    prOwn ∉ renderedPRs [prOwn] :=
  ⟨Or.inl (by decide),
    rendered_prs_external_merged [prOwn] prOwn (Or.inl (by decide))⟩

theorem checkKeywords_jstr_ne_none (name d : Str) :
    ∀ ks, checkKeywords name (.jstr d) ks ≠ none := by
  intro ks
  induction ks with
  | nil => simp [checkKeywords]
  | cons k ks ih =>
    simp only [checkKeywords]
    cases h1 : substr k (lowerStr name) with
    | true => simp
    | false =>
      simp only [Bool.false_eq_true, if_false]
      cases h2 : substr k (lowerStr d) with
      | true => simp
      | false =>
        simp only [Bool.false_eq_true, if_false]
        exact ih

/-- **C3** (counterexample). Records missing optional fields do make
processing/rendering fail, for both record kinds: a merged external PR record
with no title, URL or creation timestamp fails to render (the date parse
raises on the `''` default of `pr.get('createdAt', '')`, failing the whole
Recent section), and a repository record missing its URL (a KeyError at
`repo['url']`, no placeholder anchor) or missing its creation timestamp fails
to render as well. -/
theorem missing_field_render_fails_counterexample :
    prNoDate.title = none ∧ prNoDate.url = none ∧ prNoDate.createdAt = none ∧
    startsWithOameye prNoDate = false ∧ isMergedState prNoDate = true ∧
    renderPRLine prNoDate = none ∧ renderRecentSection [prNoDate] = none ∧
    dget repNoUrl urlKey = none ∧ renderRepoBlock repNoUrl = none ∧
    dget repNoDate createdAtKey = none ∧ renderRepoBlock repNoDate = none := by
  refine ⟨rfl, rfl, rfl, by decide, by decide, rfl, by decide, by decide,
    by decide, by decide, by decide⟩

/-- **C3** (amended). Fallback behaviour per record kind and missing field:
a PR record missing its title renders with `No title`, one missing its URL
renders with the `#` placeholder anchor (in both cases the record is kept),
while a PR record with no creation timestamp fails to render; a repository
record missing its description is categorized without failure and renders
with the `No description` fallback, kept, while a repository record missing
its URL or its creation timestamp fails to render. -/
theorem render_fallbacks :
    (∀ (pr : PR) (d : Str), pr.title = none →
      formatIsoDate pr.createdAtD = some d →
      renderPRLine pr =
        some (lit "- **[" ++ pr.fullNameD (lit "Unknown") ++ lit "](" ++
          pr.url.getD (lit "#") ++ lit ")** - " ++ lit "No title" ++
          lit " *(merged " ++ d ++ lit ")*")) ∧
    (∀ (pr : PR) (d : Str), pr.url = none →
      formatIsoDate pr.createdAtD = some d →
      renderPRLine pr =
        some (lit "- **[" ++ pr.fullNameD (lit "Unknown") ++ lit "](" ++ lit "#" ++
          lit ")** - " ++ pr.title.getD (lit "No title") ++
          lit " *(merged " ++ d ++ lit ")*")) ∧
    (∀ q : PR, q.createdAt = none → renderPRLine q = none) ∧
    (∀ (r : Dict) (name : Str), dget r descKey = none →
      dget r nameKey = some (.jstr name) → classifyRepo r ≠ none) ∧
    (∀ (r : Dict) (name url : JVal) (cA created : Str) (pos : Bool),
      dget r descKey = none →
      dget r nameKey = some name →
      dget r urlKey = some url →
      dgetD r createdAtKey (.jstr []) = .jstr cA →
      formatIsoDate cA = some created →
      pyGtZero (dgetD r starsKey (.jnum 0)) = some pos →
      renderRepoBlock r = some
        ([lit "- **[" ++ pyFstr name ++ lit "](" ++ pyFstr url ++ lit ")** " ++
            (if pos then lit "⭐ " ++ pyFstr (dgetD r starsKey (.jnum 0)) else [])] ++
          [lit "  - " ++ lit "No description"] ++
          [lit "  - *Created: " ++ created ++ lit "*", [], lit "#", []])) ∧
    (∀ r : Dict, dget r urlKey = none → renderRepoBlock r = none) ∧
    (∀ r : Dict, dget r createdAtKey = none → renderRepoBlock r = none) := by
  refine ⟨?_, ?_, ?_, ?_, ?_, ?_, ?_⟩
  · intro pr d ht hd
    simp only [renderPRLine, hd, ht, Option.map_some', Option.getD_none]
  · intro pr d hu hd
    simp only [renderPRLine, hd, hu, Option.map_some', Option.getD_none]
  · intro q hq
    have hq' : q.createdAtD = [] := by simp [PR.createdAtD, hq]
    simp only [renderPRLine, hq']
    rfl
  · intro r name hd hn
    have hdesc : dgetD r descKey (JVal.jstr []) = JVal.jstr [] := by
      simp [dgetD, hd]
    cases hskip : (truthy (pyGet r isPrivateKey) || truthy (pyGet r isForkKey)) with
    | true => simp [classifyRepo, hskip]
    | false =>
      simp only [classifyRepo, hskip, Bool.false_eq_true, if_false, hn, hdesc]
      by_cases hjl : (lit ".jl") <:+ name
      case pos =>
        rw [decide_eq_true hjl]
        simp
      case neg =>
        rw [decide_eq_false hjl]
        simp only [Bool.false_eq_true, if_false]
        cases hk1 : checkKeywords name (JVal.jstr []) docKeywords with
        | none => exact absurd hk1 (checkKeywords_jstr_ne_none name [] docKeywords)
        | some b1 =>
          cases b1 with
          | true => simp
          | false =>
            cases hk2 : checkKeywords name (JVal.jstr []) researchKeywords with
            | none => exact absurd hk2 (checkKeywords_jstr_ne_none name [] researchKeywords)
            | some b2 =>
              cases b2 with
              | true => simp
              | false =>
                cases hk3 : checkKeywords name (JVal.jstr []) toolsKeywords with
                | none => exact absurd hk3 (checkKeywords_jstr_ne_none name [] toolsKeywords)
                | some b3 =>
                  cases b3 with
                  | true => simp
                  | false => cases personalMatch name <;> simp
  · intro r name url cA created pos hd hn hu hcA hfmt hs
    have hdesc : dgetD r descKey (JVal.jstr (lit "No description")) =
        JVal.jstr (lit "No description") := by
      simp [dgetD, hd]
    have hcond : (truthy (JVal.jstr (lit "No description")) &&
        decide ((JVal.jstr (lit "No description")) ≠ JVal.jstr [])) = true := by decide
    simp only [renderRepoBlock, hn, hu, hdesc, hcA, hfmt, hs, hcond, if_true, pyFstr]
  · intro r hu
    cases hn : dget r nameKey with
    | none => simp [renderRepoBlock, hn]
    | some v => simp [renderRepoBlock, hn, hu]
  · intro r hc
    have hcA : dgetD r createdAtKey (JVal.jstr []) = JVal.jstr [] := by
      simp [dgetD, hc]
    cases hn : dget r nameKey with
    | none => simp [renderRepoBlock, hn]
    | some v =>
      cases hu : dget r urlKey with
      | none => simp [renderRepoBlock, hn, hu]
      | some u =>
        simp [renderRepoBlock, hn, hu, hcA, show formatIsoDate [] = none from rfl]

/-- Witness for `render_fallbacks`, one concrete record per conjunct: a PR
missing only its title, a PR missing only its URL, a PR with no timestamp,
and repository records missing their description, URL and timestamp. -/
theorem render_fallbacks_witness :
    (prOnlyNoTitle.title = none ∧
      renderPRLine prOnlyNoTitle =
        some (lit "- **[" ++ prOnlyNoTitle.fullNameD (lit "Unknown") ++ lit "](" ++
          prOnlyNoTitle.url.getD (lit "#") ++ lit ")** - " ++ lit "No title" ++
          lit " *(merged " ++ lit "2024-03-05" ++ lit ")*")) ∧
    (prOnlyNoUrl.url = none ∧
      renderPRLine prOnlyNoUrl =
        some (lit "- **[" ++ prOnlyNoUrl.fullNameD (lit "Unknown") ++ lit "](" ++ lit "#" ++
          lit ")** - " ++ prOnlyNoUrl.title.getD (lit "No title") ++
          lit " *(merged " ++ lit "2024-03-05" ++ lit ")*")) ∧
    (prNoDate.createdAt = none ∧ renderPRLine prNoDate = none) ∧
    (dget repNoDesc descKey = none ∧ classifyRepo repNoDesc ≠ none) ∧
    renderRepoBlock repNoDesc = some
      ([lit "- **[" ++ pyFstr (JVal.jstr (lit "Lib.jl")) ++ lit "](" ++
          pyFstr (JVal.jstr (lit "https://x")) ++ lit ")** " ++
          (if true then lit "⭐ " ++ pyFstr (dgetD repNoDesc starsKey (JVal.jnum 0)) else [])] ++
        [lit "  - " ++ lit "No description"] ++
        [lit "  - *Created: " ++ lit "2024-03-05" ++ lit "*", [], lit "#", []]) ∧
    (dget repNoUrl urlKey = none ∧ renderRepoBlock repNoUrl = none) ∧
    (dget repNoDate createdAtKey = none ∧ renderRepoBlock repNoDate = none) := by
  refine ⟨⟨rfl, ?_⟩, ⟨rfl, ?_⟩, ⟨rfl, ?_⟩, ⟨by decide, ?_⟩, ?_, ⟨by decide, ?_⟩,
    ⟨by decide, ?_⟩⟩
  · exact render_fallbacks.1 prOnlyNoTitle (lit "2024-03-05") rfl (by decide)
  · exact render_fallbacks.2.1 prOnlyNoUrl (lit "2024-03-05") rfl (by decide)
  · exact render_fallbacks.2.2.1 prNoDate rfl
  · exact render_fallbacks.2.2.2.1 repNoDesc (lit "Lib.jl") (by decide) (by decide)
  · exact render_fallbacks.2.2.2.2.1 repNoDesc (JVal.jstr (lit "Lib.jl"))
      (JVal.jstr (lit "https://x")) (lit "2024-03-05T10:00:00Z") (lit "2024-03-05")
      true (by decide) (by decide) (by decide) (by decide) (by decide) (by decide)
  · exact render_fallbacks.2.2.2.2.2.1 repNoUrl (by decide)
  · exact render_fallbacks.2.2.2.2.2.2 repNoDate (by decide)

theorem not_indent_of_head_ne {l : Str} {c : Char} (h : l.head? = some c)
    (hc : c ≠ ' ') : ¬ (lit "  - ") <+: l :=
  not_indent_of_ne_space (by rw [h]; exact fun hh => hc (by injection hh))

/-! ### Claim theorems for the flagship rendering policy -/

set_option maxRecDepth 4000 in
/-- **C1** (counterexample). With 7 merged external PRs to the JuliaDynamics
flagship, the rendered flagship block does *not* list the 5 most recent
flagship PRs individually: the branch renders only the last 3, so the entry
line of `t4` — the 4th most recent flagship PR, hence among the 5 most
recent — appears nowhere in the block (and no per-repository count list is
rendered either; `repo_counts` is dead code in this branch). -/
theorem flagship_counterexample :
    (renderFlagshipBlock (lit "CriticalTransitions.jl")
        (lit "Co-creator and main contributor") (lit "JuliaDynamics") jdPRs).isSome = true ∧
    (jdPRs.filter fun pr =>
        decide (pr.repoNameD (lit "Unknown") = lit "CriticalTransitions.jl")).length = 7 ∧
    mkPR "t4" "u4" "2024-01-04T00:00:00Z" "CriticalTransitions.jl"
        "JuliaDynamics/CriticalTransitions.jl" ∈
      (sortByCreatedDesc (jdPRs.filter fun pr =>
        decide (pr.repoNameD (lit "Unknown") = lit "CriticalTransitions.jl"))).take 5 ∧
    renderPRLine (mkPR "t4" "u4" "2024-01-04T00:00:00Z" "CriticalTransitions.jl"
        "JuliaDynamics/CriticalTransitions.jl") =
      some (lit "- **[JuliaDynamics/CriticalTransitions.jl](u4)** - t4 *(merged 2024-01-04)*") ∧
    lit "- **[JuliaDynamics/CriticalTransitions.jl](u4)** - t4 *(merged 2024-01-04)*" ∉
      (renderFlagshipBlock (lit "CriticalTransitions.jl")
        (lit "Co-creator and main contributor") (lit "JuliaDynamics") jdPRs).getD [] := by
  refine ⟨by decide, by decide, by decide, by decide, by decide⟩

/-- **C1** (amended). When the flagship has at least one PR, the rendered
flagship block contains the flagship's total PR count in its header line, the
3 most recent flagship PRs rendered individually and contiguously, followed —
at the end of the block — by an individual most-recent-first listing of the
PRs to the organization's other repositories; no per-repository count list
(lines of the `  - **repo**: N PRs` shape) is rendered. -/
theorem flagship_block_content (flagship role otherHdr : Str) (prs : List PR)
    (ls : List Str)
    (hsome : renderFlagshipBlock flagship role otherHdr prs = some ls)
    (hct : prs.filter (fun pr => decide (pr.repoNameD (lit "Unknown") = flagship)) ≠ []) :
    ((lit "**" ++ flagship ++ lit "** (" ++
        natStr (prs.filter fun pr =>
          decide (pr.repoNameD (lit "Unknown") = flagship)).length ++
        lit " PRs) - *" ++ role ++ lit "*") ∈ ls) ∧
    (∃ rl, mapOpt renderPRLine
        ((sortByCreatedDesc (prs.filter fun pr =>
          decide (pr.repoNameD (lit "Unknown") = flagship))).take 3) = some rl ∧
      rl.length = min 3 (prs.filter fun pr =>
          decide (pr.repoNameD (lit "Unknown") = flagship)).length ∧
      rl <:+: ls) ∧
    (∃ ol, mapOpt renderPRLine
        (sortByCreatedDesc (prs.filter fun pr =>
          decide (pr.repoNameD (lit "Unknown") ≠ flagship))) = some ol ∧
      ol <:+ ls ∧
      (sortByCreatedDesc (prs.filter fun pr =>
          decide (pr.repoNameD (lit "Unknown") ≠ flagship))).Pairwise
        (fun a b => prCreatedDesc a b = true) ∧
      (∀ q : PR, q ∈ sortByCreatedDesc (prs.filter fun pr =>
          decide (pr.repoNameD (lit "Unknown") ≠ flagship)) ↔
        q ∈ prs.filter fun pr => decide (pr.repoNameD (lit "Unknown") ≠ flagship))) ∧
    (∀ l ∈ ls, ¬ (lit "  - ") <+: l) := by
  simp only [renderFlagshipBlock] at hsome
  set ct := prs.filter (fun pr => decide (pr.repoNameD (lit "Unknown") = flagship)) with hct_def
  set other := prs.filter (fun pr => decide (pr.repoNameD (lit "Unknown") ≠ flagship)) with hother_def
  have hcte : ct.isEmpty = false := by
    cases hb : ct.isEmpty
    · rfl
    · exact absurd (List.isEmpty_iff.mp hb) hct
  rw [hcte] at hsome
  simp only [Bool.false_eq_true, if_false] at hsome
  cases hrl : mapOpt renderPRLine ((sortByCreatedDesc ct).take 3) with
  | none =>
    rw [hrl] at hsome
    simp at hsome
  | some rl =>
    rw [hrl] at hsome
    simp only [Option.map_some'] at hsome
    have hlen : rl.length = min 3 ct.length := by
      have h1 := mapOpt_length hrl
      rw [List.length_take] at h1
      rw [h1]
      simp [sortByCreatedDesc, length_sortStable]
    cases hoe : other.isEmpty with
    | true =>
      have hoe' : other = [] := List.isEmpty_iff.mp hoe
      rw [hoe] at hsome
      simp only [eq_self_iff_true, if_true] at hsome
      injection hsome with hls
      subst hls
      refine ⟨by simp, ⟨rl, rfl, hlen, ?_⟩,
        ⟨[], ?_, List.nil_suffix, ?_, fun q => mem_sortByCreatedDesc⟩, ?_⟩
      · rw [List.append_nil]
        exact List.infix_append _ _ _
      · rw [hoe']
        rfl
      · rw [hoe']
        simp [sortByCreatedDesc, sortStable]
      · intro l hl
        simp only [List.append_nil, List.mem_append, List.mem_cons, List.mem_singleton,
          List.not_mem_nil, or_false] at hl
        rcases hl with ((rfl | rfl | rfl) | hl') | rfl
        · exact not_indent_of_head_ne rfl (by decide)
        · exact not_indent_of_ne_space (by decide)
        · exact not_indent_of_head_ne rfl (by decide)
        · obtain ⟨pr, _, hpr⟩ := mapOpt_mem hrl l hl'
          exact not_indent_of_head_ne (renderPRLine_head? hpr) (by decide)
        · exact not_indent_of_ne_space (by decide)
    | false =>
      rw [hoe] at hsome
      simp only [Bool.false_eq_true, if_false] at hsome
      cases hol : mapOpt renderPRLine (sortByCreatedDesc other) with
      | none =>
        rw [hol] at hsome
        simp at hsome
      | some ol =>
        rw [hol] at hsome
        simp only [Option.map_some'] at hsome
        injection hsome with hls
        subst hls
        refine ⟨by simp, ⟨rl, rfl, hlen, ?_⟩,
          ⟨ol, rfl, ?_, ?_, fun q => mem_sortByCreatedDesc⟩, ?_⟩
        · rw [List.append_assoc]
          exact List.infix_append _ _ _
        · rw [← List.append_assoc]
          exact List.suffix_append _ _
        · exact sortByCreatedDesc_sorted other
        · intro l hl
          simp only [List.mem_append, List.mem_cons, List.mem_singleton,
            List.not_mem_nil, or_false] at hl
          rcases hl with (((rfl | rfl | rfl) | hl') | rfl) | ((rfl | rfl) | hl')
          · exact not_indent_of_head_ne rfl (by decide)
          · exact not_indent_of_ne_space (by decide)
          · exact not_indent_of_head_ne rfl (by decide)
          · obtain ⟨pr, _, hpr⟩ := mapOpt_mem hrl l hl'
            exact not_indent_of_head_ne (renderPRLine_head? hpr) (by decide)
          · exact not_indent_of_ne_space (by decide)
          · exact not_indent_of_head_ne rfl (by decide)
          · exact not_indent_of_ne_space (by decide)
          · obtain ⟨pr, _, hpr⟩ := mapOpt_mem hol l hl'
            exact not_indent_of_head_ne (renderPRLine_head? hpr) (by decide)

set_option maxRecDepth 8000 in
/-- Witness for `flagship_block_content` at the concrete `jdPRs` input. -/
theorem flagship_block_content_witness :
    renderFlagshipBlock (lit "CriticalTransitions.jl")
        (lit "Co-creator and main contributor") (lit "JuliaDynamics") jdPRs =
      some ((renderFlagshipBlock (lit "CriticalTransitions.jl")
        (lit "Co-creator and main contributor") (lit "JuliaDynamics") jdPRs).getD []) ∧
    (jdPRs.filter (fun pr =>
        decide (pr.repoNameD (lit "Unknown") = lit "CriticalTransitions.jl"))) ≠ [] ∧
    ((lit "**" ++ lit "CriticalTransitions.jl" ++ lit "** (" ++
        natStr (jdPRs.filter fun pr =>
          decide (pr.repoNameD (lit "Unknown") = lit "CriticalTransitions.jl")).length ++
        lit " PRs) - *" ++ lit "Co-creator and main contributor" ++ lit "*") ∈
      (renderFlagshipBlock (lit "CriticalTransitions.jl")
        (lit "Co-creator and main contributor") (lit "JuliaDynamics") jdPRs).getD []) := by
  refine ⟨by decide, by decide, ?_⟩
  exact (flagship_block_content (lit "CriticalTransitions.jl")
    (lit "Co-creator and main contributor") (lit "JuliaDynamics") jdPRs _
    (by decide) (by decide)).1

end Contrib
